import Mathlib

/-!
Verification of the pyrfeqt time-binned multi-source sample store
(src/pyrfeqt/data_container.py) against its natural-language specification.

Shallow embedding conventions:
* Machine floats are modelled as rationals; a NaN cell entry is modelled as
  the value none of type Option Rat (numpy uses float NaN as the absence
  sentinel).  All concrete inputs used below are exactly representable, so
  rational arithmetic coincides with the float arithmetic of the source.
* The data cube (sources x resident-bins x sampleSize) is a nested list; the
  parallel mtimes table (rows: rounded bin id, raw mtime) is a list of pairs.
* The directory scanner part of DataContainer.update (glob plus stat) is
  external to the store; update takes the scanned entries as a parameter,
  each a raw mtime together with the outcome of the numpy load of that file:
  ok with the loaded vector, eofError (truncated read, caught by the source),
  or loadFailure (any other exception, not caught by the source).
* Python exceptions surface as an Option PyErr next to the mutated state:
  every exception site in the source raises before the entry mutates the
  container, so the state paired with an error is the state reached by the
  already-processed entries, exactly as in the mutating Python code.
-/

namespace Pyrfeqt

/-- Sample vector of one (source, bin) cell; none models a NaN entry. -/
abbrev Cell : Type := List (Option ℚ)

/-- Time axis of one source: the list of cells of the resident bins. -/
abbrev Slab : Type := List Cell

/-- Outcome of the numpy load of one scanned file (data_container.py lines
145-149): ok carries the loaded vector; eofError models the EOFError raised
by a truncated read (the only exception the source catches); loadFailure
models any other load exception (not caught by the source). -/
inductive LoadResult : Type where
  | ok (arr : Cell)
  | eofError
  | loadFailure
deriving Repr, DecidableEq

/-- Python exceptions that DataContainer methods can raise, one constructor
per raise site reachable in the modelled code. -/
inductive PyErr : Type where
  /-- Uncaught load exception propagating out of update (line 147). -/
  | loadError
  /-- KeyError from mtimesSet.remove of an absent id (line 157). -/
  | keyError
  /-- IndexError reading mtimes
      at column 0 of an empty table (line 157). -/
  | indexError
  /-- ValueError at latest lines 200-203: unexpected aggregate mode. -/
  | valueErrorUnexpectedMode (mode : String)
  /-- ValueError from RegularGridInterpolator when the values array rank
      does not match the two grid axes (reachable only with window below 1,
      where the noop aggregator leaves the slab three-dimensional). -/
  | valueErrorDims
  /-- ValueError from np.linspace given a negative sample count
      (reachable only with window below 0). -/
  | valueErrorNegativeSamples
deriving Repr, DecidableEq

/-- State of DataContainer (data_container.py lines 18-44).  mtimes pairs a
rounded bin identifier with the raw mtime recorded for the bin; mtimesSet is
the separately maintained set of resident bin identifiers; data is the cube
(sources x resident-bins x sampleSize) with none for NaN. -/
structure DataContainer : Type where
  binWidth : ℚ
  historySize : ℕ
  sampleSize : ℕ
  paths : List String
  sources : List String
  mtimes : List (ℤ × ℚ)
  mtimesSet : Finset ℤ
  data : List Slab
deriving DecidableEq

attribute [ext] DataContainer

/-- Fresh container as built by DataContainer.__init__ (lines 18-44), with
the paths list taken as given (the GUI populates it before ingestion). -/
def mkDataContainer (binWidth : ℚ) (historySize sampleSize : ℕ)
    (paths : List String) : DataContainer :=
  { binWidth := binWidth
    historySize := historySize
    sampleSize := sampleSize
    paths := paths
    sources := []
    mtimes := []
    mtimesSet := ∅
    data := [] }

/-- Apply f to the element at index n, leaving the list unchanged when n is
out of range (numpy row assignment; indices are in range in the source). -/
def modN (f : α → α) : ℕ → List α → List α
  | _, [] => []
  | 0, a :: l => f a :: l
  | n + 1, a :: l => a :: modN f n l

/-- Shift a slab one step toward the past: np.roll by -1 along the time
axis moves the column at index 0 to the last position (line 160). -/
def roll1 (l : List α) : List α := l.tail ++ l.take 1

/-- Write arr into every time position whose bin identifier equals b,
mirroring the boolean-mask assignment data[pix, tmask, :] = new_data with
tmask the mask mtime_bin == mtimes[0] (lines 139 and 173). -/
def writeMaskSlab (b : ℤ) (arr : Cell) : List ℤ → Slab → Slab
  | _, [] => []
  | [], cs => cs
  | i :: is, c :: cs =>
      (if i = b then arr else c) :: writeMaskSlab b arr is cs

/-- Test of line 141: some entry of the pix row restricted to the time
positions of bin b is non-NaN. -/
def anyWrittenAt (dc : DataContainer) (pix : ℕ) (b : ℤ) : Bool :=
  ((dc.mtimes.map Prod.fst).zip (dc.data.getD pix [])).any
    (fun p => p.1 = b && p.2.any Option.isSome)

/-- State change of case 3 (lines 151-153 and 172-173): the bin is already
resident, so write the loaded vector at its time positions for source pix
and re-add the identifier to the set (a no-op there). -/
def writeResident (dc : DataContainer) (pix : ℕ) (b : ℤ) (arr : Cell) :
    DataContainer :=
  { dc with
    mtimesSet := insert b dc.mtimesSet
    data := modN (writeMaskSlab b arr (dc.mtimes.map Prod.fst)) pix dc.data }

/-- State change of case 4 (lines 154-160 and 172-173) when the table is
m0 :: rest: drop the identifier of the column-0 bin from the set, roll the
table and the cube one step so that column 0 becomes the last column,
overwrite that last column with the new bin, and write the loaded vector at
the last time position of source pix. -/
def evictInsert (dc : DataContainer) (pix : ℕ) (m0 : ℤ × ℚ)
    (rest : List (ℤ × ℚ)) (b : ℤ) (mtime : ℚ) (arr : Cell) : DataContainer :=
  { dc with
    mtimes := rest ++ [(b, mtime)]
    mtimesSet := insert b (dc.mtimesSet.erase m0.1)
    data := modN (fun s => s.set rest.length arr) pix (dc.data.map roll1) }

/-- State change of case 5 (lines 161-173): append a NaN column for the new
bin to every source row, record the bin, and write the loaded vector at the
new last time position of source pix. -/
def appendInsert (dc : DataContainer) (pix : ℕ) (b : ℤ) (mtime : ℚ)
    (arr : Cell) : DataContainer :=
  { dc with
    mtimes := dc.mtimes ++ [(b, mtime)]
    mtimesSet := insert b dc.mtimesSet
    data := modN (fun s => s.set dc.mtimes.length arr) pix
      (dc.data.map (fun s => s ++ [List.replicate dc.sampleSize none])) }

/-- Body of the per-entry loop of DataContainer.update (lines 133-173) with
the bin identifier b = floor (mtime / binWidth) passed explicitly.  Each
error constructor corresponds to an exception raised before the entry has
mutated the container. -/
def processEntryB (dc : DataContainer) (pix : ℕ) (mtime : ℚ) (b : ℤ)
    (load : LoadResult) : Except PyErr DataContainer :=
  -- Case 1/1a (lines 137-142): bin resident and the pix row already written.
  if b ∈ dc.mtimesSet ∧ anyWrittenAt dc pix b = true then .ok dc
  else
    match load with
    -- Case 2 (lines 144-149): EOFError is caught and the entry skipped.
    | .eofError => .ok dc
    -- Any other load exception is not caught and propagates.
    | .loadFailure => .error .loadError
    | .ok arr =>
      if b ∈ dc.mtimesSet then .ok (writeResident dc pix b arr)
      else if dc.mtimes.length = dc.historySize then
        match dc.mtimes with
        -- mtimes[0, 0] on an empty table raises IndexError.
        | [] => .error .indexError
        | m0 :: rest =>
          -- set.remove raises KeyError when the id is absent.
          if m0.1 ∈ dc.mtimesSet then .ok (evictInsert dc pix m0 rest b mtime arr)
          else .error .keyError
      else .ok (appendInsert dc pix b mtime arr)

/-- Per-entry step of DataContainer.update with the bin computed from the
raw mtime (line 135): mtime_bin = floor (mtime / binWidth). -/
def processEntry (dc : DataContainer) (pix : ℕ) (mtime : ℚ)
    (load : LoadResult) : Except PyErr DataContainer :=
  processEntryB dc pix mtime ⌊mtime / dc.binWidth⌋ load

/-- Source registration step of DataContainer.update (lines 114-122): when
the source is new, append it to the registry and pad the cube with a NaN
slab on the source axis. -/
def addIfNew (dc : DataContainer) (source : String) : DataContainer :=
  if source ∈ dc.sources then dc
  else
    { dc with
      sources := dc.sources ++ [source]
      data := dc.data ++
        [List.replicate dc.mtimes.length (List.replicate dc.sampleSize none)] }

/-- Row index used for the source (line 115): its registry index, or the
current registry length when it is about to be appended. -/
def pixOf (dc : DataContainer) (source : String) : ℕ :=
  if source ∈ dc.sources then dc.sources.indexOf source else dc.sources.length

/-- Stable sort of the scanned entries by raw mtime (lines 130-132; Python
sorted is stable, and a stable sort is uniquely determined). -/
def sortEntries (entries : List (ℚ × LoadResult)) : List (ℚ × LoadResult) :=
  List.insertionSort (fun a b => a.1 ≤ b.1) entries

/-- Python slice entries[-historySize:] of line 133: the last historySize
entries, or the whole list when historySize is 0. -/
def recentOf (h : ℕ) (l : List (ℚ × LoadResult)) : List (ℚ × LoadResult) :=
  if h = 0 then l else l.drop (l.length - h)

/-- Run the per-entry loop, stopping at the first uncaught exception; the
returned state keeps the effects of the already-processed entries, as the
mutating Python loop does. -/
def runEntries (pix : ℕ) : DataContainer → List (ℚ × LoadResult) →
    DataContainer × Option PyErr
  | dc, [] => (dc, none)
  | dc, e :: es =>
    match processEntry dc pix e.1 e.2 with
    | .ok dc' => runEntries pix dc' es
    | .error err => (dc, some err)

/-- DataContainer.update (lines 113-175) with the scanner output passed in:
register the source if new, return early when no base path is configured,
and otherwise process the most recent historySize entries in mtime order. -/
def update (dc0 : DataContainer) (source : String)
    (entries : List (ℚ × LoadResult)) : DataContainer × Option PyErr :=
  let pix := pixOf dc0 source
  let dc := addIfNew dc0 source
  if dc.paths = [] then (dc, none)
  else runEntries pix dc (recentOf dc.historySize (sortEntries entries))

/-- Sequence of ingest calls; each call leaves its processed prefix in the
container even when it raised, as the caller keeps the same object. -/
def runBatches (dc : DataContainer)
    (bs : List (String × List (ℚ × LoadResult))) : DataContainer :=
  bs.foldl (fun d p => (update d p.1 p.2).1) dc

/-!
Source removal (data_container.py lines 72-91).
-/

/-- Negation of the deletion mask of removeNanSamples line 74: time position
tix is kept when some source has a non-NaN entry in its cell there. -/
def keepSample (dc : DataContainer) (tix : ℕ) : Bool :=
  dc.data.any (fun slab => (slab.getD tix []).any Option.isSome)

/-- Keep the elements whose index satisfies p, numbering from i. -/
def filterIdxAux (p : ℕ → Bool) : ℕ → List α → List α
  | _, [] => []
  | i, a :: l =>
      if p i then a :: filterIdxAux p (i + 1) l else filterIdxAux p (i + 1) l

/-- Keep the elements whose index satisfies p (np.delete of the complement
index set along the time axis, lines 75 and 81-82). -/
def filterIdx (p : ℕ → Bool) (l : List α) : List α := filterIdxAux p 0 l

/-- DataContainer.removeNanSamples (lines 72-82): delete every time position
whose cell is all-NaN across every source, drop the corresponding rounded
identifiers from the set, and delete the columns from table and cube.  The
mask is indexed by time position; under the container well-formedness the
cube and the table have the same time length, as numpy assumes. -/
def removeNanSamples (dc : DataContainer) : DataContainer :=
  { dc with
    mtimes := filterIdx (keepSample dc) dc.mtimes
    mtimesSet := dc.mtimesSet \
      (filterIdx (fun i => ! keepSample dc i) (dc.mtimes.map Prod.fst)).toFinset
    data := dc.data.map (fun slab => filterIdx (keepSample dc) slab) }

/-- Registry and cube part of DataContainer.remove (lines 88-90): pop the
source from the registry and delete its row of the cube. -/
def eraseSource (dc : DataContainer) (source : String) : DataContainer :=
  { dc with
    sources := dc.sources.eraseIdx (dc.sources.indexOf source)
    data := dc.data.eraseIdx (dc.sources.indexOf source) }

/-- DataContainer.remove (lines 84-91): no-op for an unknown source, else
delete the row and garbage-collect the all-NaN time positions. -/
def remove (dc : DataContainer) (source : String) : DataContainer :=
  if source ∈ dc.sources then removeNanSamples (eraseSource dc source)
  else dc

/-!
Query path (DataContainer.latest, lines 177-229).
-/

/-- Rank-2 or rank-3 numpy result of latest (the noop aggregator used with
mode none leaves the slab three-dimensional). -/
inductive NpArr : Type where
  | arr2 (v : List Cell)
  | arr3 (v : List Slab)
deriving DecidableEq

deriving instance DecidableEq for Except

/-- Total number of scalar entries of a cube (ndarray.size). -/
def numel3 (cube : List Slab) : ℕ :=
  (cube.map (fun s => (s.map List.length).sum)).sum

/-- Test of line 197: every entry of the window slab is NaN. -/
def allNan3 (cube : List Slab) : Bool :=
  cube.all (fun s => s.all (fun c => c.all Option.isNone))

/-- Row selection of line 181: the rows of the cube whose source name is in
the selection, in registry order. -/
def selectData (dc : DataContainer) (selection : List String) : List Slab :=
  ((dc.sources.zip dc.data).filter (fun p => p.1 ∈ selection)).map Prod.snd

/-- Indices of xs in ascending order of value (np.argsort of line 186,
modelled as the stable sort; it agrees with numpy on distinct keys). -/
def argsortQ (xs : List ℚ) : List ℕ :=
  List.insertionSort (fun i j => xs.getD i 0 ≤ xs.getD j 0)
    (List.range xs.length)

/-- First index of the least element (np.argmin of line 191). -/
def argminAux : ℕ → ℕ → ℚ → List ℚ → ℕ
  | _, best, _, [] => best
  | i, best, bv, x :: r =>
      if x < bv then argminAux (i + 1) i x r else argminAux (i + 1) best bv r

/-- First index of the least element of xs; 0 on the empty list. -/
def argminQ : List ℚ → ℕ
  | [] => 0
  | x :: r => argminAux 1 0 x r

/-- np.nanmean over the source axis for one scalar position: mean of the
non-NaN contributions, NaN when there is none. -/
def nanmeanCol (col : List (Option ℚ)) : Option ℚ :=
  let v := col.filterMap id
  if v = [] then none else some (v.sum / v.length)

/-- np.nansum over the source axis for one scalar position: NaN counts as
zero, so an all-NaN column sums to 0. -/
def nansumCol (col : List (Option ℚ)) : Option ℚ :=
  some (col.filterMap id).sum

/-- np.nanmax over the source axis for one scalar position: max of the
non-NaN contributions, NaN when there is none. -/
def nanmaxCol (col : List (Option ℚ)) : Option ℚ :=
  match col.filterMap id with
  | [] => none
  | a :: r => some (r.foldl max a)

/-- Collapse the source axis of a cube with the per-position reducer f
(aggregator call of line 211 with axis 0). -/
def colReduce (f : List (Option ℚ) → Option ℚ) (cube : List Slab) : List Cell :=
  let T := (cube.headD []).length
  let S := ((cube.headD []).headD []).length
  (List.range T).map (fun t =>
    (List.range S).map (fun s =>
      f (cube.map (fun slab => (slab.getD t []).getD s none))))

/-- Sorted raw-mtime order of the table (lines 186-188). -/
def sortPermOf (dc : DataContainer) : List ℕ :=
  argsortQ (dc.mtimes.map Prod.snd)

/-- Raw mtimes in ascending order (row 1 of the sorted table). -/
def sortedTimes (dc : DataContainer) : List ℚ :=
  (sortPermOf dc).map (fun i => (dc.mtimes.getD i (0, 0)).2)

/-- Selected cube with its time axis in ascending raw-mtime order. -/
def sortedSelect (dc : DataContainer) (selection : List String) : List Slab :=
  (selectData dc selection).map (fun slab =>
    (sortPermOf dc).map (fun i => slab.getD i []))

/-- Latest raw mtime (mtimes[1, -1] of line 190; the table is non-empty on
every path that evaluates this). -/
def lastTime (dc : DataContainer) : ℚ := (sortedTimes dc).getLast?.getD 0

/-- Window target of line 190: latest mtime minus binWidth * (window - 1). -/
def mtimeTarget (dc : DataContainer) (window : ℤ) : ℚ :=
  lastTime dc - dc.binWidth * ((window : ℚ) - 1)

/-- Index of the resident time position closest to the target (line 191). -/
def windowIdxOf (dc : DataContainer) (window : ℤ) : ℕ :=
  argminQ ((sortedTimes dc).map (fun t => |t - mtimeTarget dc window|))

/-- Candidate window slab of line 193: the sorted selected cube from the
window index on. -/
def windowDataOf (dc : DataContainer) (selection : List String) (window : ℤ) :
    List Slab :=
  (sortedSelect dc selection).map (fun slab => slab.drop (windowIdxOf dc window))

/-- Raw mtimes of the candidate window (line 194). -/
def windowMtimesOf (dc : DataContainer) (window : ℤ) : List ℚ :=
  (sortedTimes dc).drop (windowIdxOf dc window)

/-- Round half to even at the scale of two decimal places (np.round with
decimals=2, line 219-222). -/
def roundHalfEven2 (x : ℚ) : ℚ :=
  let y := 100 * x
  let n := ⌊y⌋
  let f := y - n
  (if f < 1 / 2 then (n : ℚ)
   else if 1 / 2 < f then (n : ℚ) + 1
   else if 2 ∣ n then (n : ℚ) else (n : ℚ) + 1) / 100

/-- np.linspace with endpoint=True on exact rationals. -/
def linspaceQ (a b : ℚ) (n : ℕ) : List ℚ :=
  if n = 0 then []
  else if n = 1 then [a]
  else (List.range n).map (fun i => a + (b - a) * i / ((n : ℚ) - 1))

/-- np.searchsorted side left on an ascending grid: number of grid points
strictly below x. -/
def ssLeft (grid : List ℚ) (x : ℚ) : ℕ := grid.countP (fun g => g < x)

/-- Lower cell index and normalized distance used by the regular-grid
interpolator on one axis, with the scipy clipping to the cell range; a
length-one axis degenerates to index 0 with distance 0. -/
def findIdxFrac (grid : List ℚ) (x : ℚ) : ℕ × ℚ :=
  if grid.length ≤ 1 then (0, 0)
  else
    let i := min (max (ssLeft grid x) 1 - 1) (grid.length - 2)
    (i, (x - grid.getD i 0) / (grid.getD (i + 1) 0 - grid.getD i 0))

/-- One value of the 2-D linear RegularGridInterpolator at (t, y): the four
surrounding corner terms are always summed, so a NaN corner makes the result
NaN even under a zero weight, as in scipy. -/
def bilinearAt (ts ys : List ℚ) (V : List Cell) (t y : ℚ) : Option ℚ :=
  let it := findIdxFrac ts t
  let jy := findIdxFrac ys y
  let i1 := min (it.1 + 1) (ts.length - 1)
  let j1 := min (jy.1 + 1) (ys.length - 1)
  match (V.getD it.1 []).getD jy.1 none, (V.getD i1 []).getD jy.1 none,
      (V.getD it.1 []).getD j1 none, (V.getD i1 []).getD j1 none with
  | some v00, some v10, some v01, some v11 =>
      some (v00 * (1 - it.2) * (1 - jy.2) + v10 * it.2 * (1 - jy.2) +
        v01 * (1 - it.2) * jy.2 + v11 * it.2 * jy.2)
  | _, _, _, _ => none

/-- Evaluation of the interpolator on the meshgrid of the resampled times
and the sample positions (lines 224-229). -/
def interpEval (ts ys : List ℚ) (V : List Cell) (samples : List ℚ) :
    List Cell :=
  samples.map (fun t => ys.map (fun y => bilinearAt ts ys V t y))

/-- Resampling tail of latest for a rank-2 reduced slab (lines 217-229):
build the interpolator over (window mtimes, sample positions), compute the
coverage fraction rounded to two decimals and capped at 1, and evaluate on
floor (window * fraction) evenly spaced times.  np.linspace raises on a
negative sample count (reachable only for window below 0). -/
def interpTail (dc : DataContainer) (window : ℤ) (windowMtimes : List ℚ)
    (values : List Cell) : Except PyErr NpArr :=
  let points : List ℚ := (List.range dc.sampleSize).map (fun i => (i : ℚ))
  let tLast := lastTime dc
  let tFirst := windowMtimes.headD 0
  let frac := min 1 (roundHalfEven2
    ((tLast - tFirst) / (tLast - mtimeTarget dc window)))
  let n : ℤ := ⌊(window : ℚ) * frac⌋
  if n < 0 then .error .valueErrorNegativeSamples
  else .ok (.arr2 (interpEval windowMtimes points values
    (linspaceQ tFirst tLast n.toNat)))

/-- DataContainer.latest (lines 177-229).  The method reads the container
and never assigns to it, so each exit pairs its result with the unchanged
state; the modes reachable past the guards are exactly none, mean, sum and
max, and every other mode string falls to the noop aggregator as the getattr
default does for them (further numpy nan-reducers, reachable only with
window below 1, are not modelled). -/
def latest (dc : DataContainer) (selection : List String) (mode : String)
    (window : ℤ) : Except PyErr NpArr × DataContainer :=
  if numel3 dc.data = 0 then (.ok (.arr2 []), dc)
  else if numel3 (selectData dc selection) = 0 then (.ok (.arr2 []), dc)
  else if allNan3 (windowDataOf dc selection window) = true then
    (.ok (.arr2 []), dc)
  else if window = 1 ∧ mode ∉ (["none", "mean", "sum", "max"] : List String) then
    (.error (.valueErrorUnexpectedMode mode), dc)
  else if 1 < window ∧ mode ∉ (["mean", "sum", "max"] : List String) then
    (.error (.valueErrorUnexpectedMode mode), dc)
  else if mode ∈ (["mean", "sum", "max"] : List String) then
    if window = 1 then
      (.ok (.arr2 (colReduce
        (if mode = "mean" then nanmeanCol
         else if mode = "sum" then nansumCol else nanmaxCol)
        (windowDataOf dc selection window))), dc)
    else
      (interpTail dc window (windowMtimesOf dc window)
        (colReduce
          (if mode = "mean" then nanmeanCol
           else if mode = "sum" then nansumCol else nanmaxCol)
          (windowDataOf dc selection window)), dc)
  else
    -- noop aggregator: the slab keeps its source axis.
    if window = 1 then (.ok (.arr3 (windowDataOf dc selection window)), dc)
    else
      -- RegularGridInterpolator rejects rank-3 values against 2 grid axes.
      (.error .valueErrorDims, dc)

/-!
Container well-formedness: the bookkeeping invariants that __init__
establishes and the mutators maintain (spec section 3): cube first axis
matches the registry, second axis matches the bin table, the identifier set
mirrors the table without duplicates, and the table respects the capacity.
-/

/-!
Concrete example stores used by the witnesses below (binWidth 1, small
capacities, one-sample cells; all timestamps exactly representable).
-/

/-- Store with one source A holding one bin: bin 10 with raw mtime 10.2 and
cell value 1 (capacity 3). -/
def exampleOneBinStore : DataContainer :=
  (update (mkDataContainer 1 3 1 ["p"]) "A" [(51/5, .ok [some 1])]).1

/-- Store at capacity two for source A: bins 10 and 11 with ascending raw
mtimes 10.5 and 11.5. -/
def exampleFullStore : DataContainer :=
  runBatches (mkDataContainer 1 2 1 ["p"])
    [("A", [(21/2, .ok [some 1])]), ("A", [(23/2, .ok [some 2])])]

/-- Store with two sources: A populated bin 10 at mtime 10.5, B populated
bin 5 at mtime 5.5 (capacity 2). -/
def exampleTwoSourceStore : DataContainer :=
  runBatches (mkDataContainer 1 2 1 ["p"])
    [("A", [(21/2, .ok [some 1])]), ("B", [(11/2, .ok [some 2])])]

/-- Well-formedness of a container. -/
def WF (dc : DataContainer) : Prop :=
  dc.data.length = dc.sources.length ∧
  (∀ slab ∈ dc.data, slab.length = dc.mtimes.length) ∧
  (dc.mtimes.map Prod.fst).Nodup ∧
  dc.mtimesSet = (dc.mtimes.map Prod.fst).toFinset ∧
  dc.mtimes.length ≤ dc.historySize

instance decidableWF (dc : DataContainer) : Decidable (WF dc) := by
  unfold WF
  infer_instance

attribute [local semireducible] Rat.add Rat.mul Rat.inv Rat.sub

theorem wf_mk (binWidth : ℚ) (h s : ℕ) (paths : List String) :
    WF (mkDataContainer binWidth h s paths) := by
  refine ⟨rfl, ?_, ?_, rfl, ?_⟩ <;> simp [mkDataContainer]

/-!
List helper lemmas.
-/

theorem modN_length (f : α → α) (n : ℕ) (l : List α) :
    (modN f n l).length = l.length := by
  induction l generalizing n with
  | nil => cases n <;> rfl
  | cons a l ih => cases n with
    | zero => rfl
    | succ n => simpa [modN] using ih n

theorem mem_modN {f : α → α} {n : ℕ} {l : List α} {a : α}
    (h : a ∈ modN f n l) : a ∈ l ∨ ∃ b ∈ l, a = f b := by
  induction l generalizing n with
  | nil => simp [modN] at h
  | cons c l ih =>
    cases n with
    | zero =>
      rcases (by simpa [modN] using h : a = f c ∨ a ∈ l) with h | h
      · exact Or.inr ⟨c, by simp, h⟩
      · exact Or.inl (by simp [h])
    | succ n =>
      rcases (by simpa [modN] using h : a = c ∨ a ∈ modN f n l) with h | h
      · exact Or.inl (by simp [h])
      · rcases ih h with h | ⟨b, hb, rfl⟩
        · exact Or.inl (by simp [h])
        · exact Or.inr ⟨b, by simp [hb], rfl⟩

theorem modN_eq_self {f : α → α} {n : ℕ} {l : List α}
    (h : ∀ a, l.get? n = some a → f a = a) : modN f n l = l := by
  induction l generalizing n with
  | nil => cases n <;> rfl
  | cons c l ih =>
    cases n with
    | zero => simp [modN, h c rfl]
    | succ n => simp [modN, ih (fun a ha => h a (by simpa using ha))]

theorem modN_forall {f : α → α} {P : α → Prop} (hf : ∀ a, P a → P (f a))
    {n : ℕ} {l : List α} (hl : ∀ a ∈ l, P a) : ∀ a ∈ modN f n l, P a := by
  intro a ha
  rcases mem_modN ha with h | ⟨c, hc, rfl⟩
  · exact hl a h
  · exact hf c (hl c hc)

theorem modN_modN (f g : α → α) (n : ℕ) (l : List α) :
    modN f n (modN g n l) = modN (fun a => f (g a)) n l := by
  induction l generalizing n with
  | nil => cases n <;> rfl
  | cons c l ih => cases n with
    | zero => rfl
    | succ n => simp [modN, ih n]

theorem writeMaskSlab_length (b : ℤ) (arr : Cell) (ids : List ℤ) (s : Slab) :
    (writeMaskSlab b arr ids s).length = s.length := by
  induction ids generalizing s with
  | nil => cases s <;> rfl
  | cons i is ih => cases s with
    | nil => rfl
    | cons c cs => simp [writeMaskSlab, ih]

theorem writeMaskSlab_eq_self {b : ℤ} {arr : Cell} {ids : List ℤ} {s : Slab}
    (h : ∀ p ∈ ids.zip s, p.1 = b → p.2 = arr) :
    writeMaskSlab b arr ids s = s := by
  induction ids generalizing s with
  | nil => cases s <;> rfl
  | cons i is ih =>
    cases s with
    | nil => rfl
    | cons c cs =>
      have hh := h (i, c) (by simp)
      have ht : ∀ p ∈ is.zip cs, p.1 = b → p.2 = arr :=
        fun p hp => h p (by simp [hp])
      by_cases hib : i = b
      · have hc : c = arr := hh hib
        subst hc
        simp [writeMaskSlab, hib, ih ht]
      · simp [writeMaskSlab, hib, ih ht]

theorem writeMaskSlab_idem (b : ℤ) (arr : Cell) (ids : List ℤ) (s : Slab) :
    writeMaskSlab b arr ids (writeMaskSlab b arr ids s) =
      writeMaskSlab b arr ids s := by
  induction ids generalizing s with
  | nil => cases s <;> rfl
  | cons i is ih =>
    cases s with
    | nil => rfl
    | cons c cs =>
      by_cases hib : i = b <;> simp [writeMaskSlab, hib, ih]

theorem roll1_length (l : List α) : (roll1 l).length = l.length := by
  cases l <;> simp [roll1]

/-!
Case analysis of the per-entry step.
-/

theorem processEntryB_skip {dc : DataContainer} {pix : ℕ} {t : ℚ} {b : ℤ}
    {load : LoadResult} (h1 : b ∈ dc.mtimesSet)
    (h2 : anyWrittenAt dc pix b = true) :
    processEntryB dc pix t b load = .ok dc := by
  simp [processEntryB, h1, h2]

theorem processEntryB_eof (dc : DataContainer) (pix : ℕ) (t : ℚ) (b : ℤ) :
    processEntryB dc pix t b .eofError = .ok dc := by
  unfold processEntryB
  split <;> rfl

theorem processEntryB_fail {dc : DataContainer} {pix : ℕ} {t : ℚ} {b : ℤ}
    (h : ¬ (b ∈ dc.mtimesSet ∧ anyWrittenAt dc pix b = true)) :
    processEntryB dc pix t b .loadFailure = .error .loadError := by
  unfold processEntryB
  rw [if_neg h]

theorem processEntryB_resident {dc : DataContainer} {pix : ℕ} {t : ℚ} {b : ℤ}
    {arr : Cell} (hmem : b ∈ dc.mtimesSet)
    (hw : anyWrittenAt dc pix b = false) :
    processEntryB dc pix t b (.ok arr) = .ok (writeResident dc pix b arr) := by
  simp [processEntryB, hmem, hw]

theorem processEntryB_append {dc : DataContainer} {pix : ℕ} {t : ℚ} {b : ℤ}
    {arr : Cell} (hmem : b ∉ dc.mtimesSet)
    (hlen : dc.mtimes.length ≠ dc.historySize) :
    processEntryB dc pix t b (.ok arr) = .ok (appendInsert dc pix b t arr) := by
  simp [processEntryB, hmem, hlen]

theorem processEntryB_evict {dc : DataContainer} {pix : ℕ} {t : ℚ} {b : ℤ}
    {arr : Cell} {m0 : ℤ × ℚ} {rest : List (ℤ × ℚ)}
    (hmt : dc.mtimes = m0 :: rest) (hmem : b ∉ dc.mtimesSet)
    (hlen : dc.mtimes.length = dc.historySize) (h0 : m0.1 ∈ dc.mtimesSet) :
    processEntryB dc pix t b (.ok arr) =
      .ok (evictInsert dc pix m0 rest b t arr) := by
  have hlen' : (m0 :: rest).length = dc.historySize := hmt ▸ hlen
  simp [processEntryB, hmem, hmt, hlen', h0]

theorem processEntryB_indexError {dc : DataContainer} {pix : ℕ} {t : ℚ}
    {b : ℤ} {arr : Cell} (hmt : dc.mtimes = [])
    (hmem : b ∉ dc.mtimesSet) (hlen : dc.mtimes.length = dc.historySize) :
    processEntryB dc pix t b (.ok arr) = .error .indexError := by
  have hlen' : ([] : List (ℤ × ℚ)).length = dc.historySize := hmt ▸ hlen
  simp [processEntryB, hmem, hmt, hlen']

theorem processEntryB_keyError {dc : DataContainer} {pix : ℕ} {t : ℚ}
    {b : ℤ} {arr : Cell} {m0 : ℤ × ℚ} {rest : List (ℤ × ℚ)}
    (hmt : dc.mtimes = m0 :: rest) (hmem : b ∉ dc.mtimesSet)
    (hlen : dc.mtimes.length = dc.historySize) (h0 : m0.1 ∉ dc.mtimesSet) :
    processEntryB dc pix t b (.ok arr) = .error .keyError := by
  have hlen' : (m0 :: rest).length = dc.historySize := hmt ▸ hlen
  simp [processEntryB, hmem, hmt, hlen', h0]

/-- Every successful per-entry step is a skip or one of the three insert
shapes of the source, with the branch conditions it was taken under. -/
theorem processEntryB_ok_cases {dc dc' : DataContainer} {pix : ℕ} {t : ℚ}
    {b : ℤ} {load : LoadResult}
    (h : processEntryB dc pix t b load = .ok dc') :
    (dc' = dc ∧ ((b ∈ dc.mtimesSet ∧ anyWrittenAt dc pix b = true) ∨
      load = .eofError)) ∨
    (∃ arr, load = .ok arr ∧ b ∈ dc.mtimesSet ∧
      dc' = writeResident dc pix b arr) ∨
    (∃ arr m0 rest, load = .ok arr ∧ dc.mtimes = m0 :: rest ∧
      b ∉ dc.mtimesSet ∧ dc.mtimes.length = dc.historySize ∧
      m0.1 ∈ dc.mtimesSet ∧ dc' = evictInsert dc pix m0 rest b t arr) ∨
    (∃ arr, load = .ok arr ∧ b ∉ dc.mtimesSet ∧
      dc.mtimes.length ≠ dc.historySize ∧
      dc' = appendInsert dc pix b t arr) := by
  cases load with
  | eofError =>
    rw [processEntryB_eof] at h
    injection h with h
    exact Or.inl ⟨h.symm, Or.inr rfl⟩
  | loadFailure =>
    by_cases hc : b ∈ dc.mtimesSet ∧ anyWrittenAt dc pix b = true
    · rw [processEntryB_skip hc.1 hc.2] at h
      injection h with h
      exact Or.inl ⟨h.symm, Or.inl hc⟩
    · rw [processEntryB_fail hc] at h
      exact absurd h (by simp)
  | ok arr =>
    by_cases hc : b ∈ dc.mtimesSet ∧ anyWrittenAt dc pix b = true
    · rw [processEntryB_skip hc.1 hc.2] at h
      injection h with h
      exact Or.inl ⟨h.symm, Or.inl hc⟩
    · by_cases hmem : b ∈ dc.mtimesSet
      · have hw : anyWrittenAt dc pix b = false := by
          cases hax : anyWrittenAt dc pix b
          · rfl
          · exact absurd ⟨hmem, hax⟩ hc
        rw [processEntryB_resident hmem hw] at h
        injection h with h
        exact Or.inr (Or.inl ⟨arr, rfl, hmem, h.symm⟩)
      · by_cases hlen : dc.mtimes.length = dc.historySize
        · cases hmt : dc.mtimes with
          | nil =>
            rw [processEntryB_indexError hmt hmem hlen] at h
            exact absurd h (by simp)
          | cons m0 rest =>
            by_cases h0 : m0.1 ∈ dc.mtimesSet
            · rw [processEntryB_evict hmt hmem hlen h0] at h
              injection h with h
              exact Or.inr (Or.inr (Or.inl
                ⟨arr, m0, rest, rfl, rfl, hmem, hmt ▸ hlen, h0, h.symm⟩))
            · rw [processEntryB_keyError hmt hmem hlen h0] at h
              exact absurd h (by simp)
        · rw [processEntryB_append hmem hlen] at h
          injection h with h
          exact Or.inr (Or.inr (Or.inr ⟨arr, rfl, hmem, hlen, h.symm⟩))

/-- Configuration, paths and registry are untouched by a per-entry step. -/
theorem processEntryB_ok_config {dc dc' : DataContainer} {pix : ℕ} {t : ℚ}
    {b : ℤ} {load : LoadResult}
    (h : processEntryB dc pix t b load = .ok dc') :
    dc'.binWidth = dc.binWidth ∧ dc'.historySize = dc.historySize ∧
    dc'.sampleSize = dc.sampleSize ∧ dc'.paths = dc.paths ∧
    dc'.sources = dc.sources := by
  rcases processEntryB_ok_cases h with ⟨rfl, -⟩ | ⟨arr, -, -, rfl⟩ |
    ⟨arr, m0, rest, -, -, -, -, -, rfl⟩ | ⟨arr, -, -, -, rfl⟩ <;>
    exact ⟨rfl, rfl, rfl, rfl, rfl⟩

/-!
Preservation of well-formedness.
-/

theorem wf_writeResident {dc : DataContainer} (hwf : WF dc) {pix : ℕ} {b : ℤ}
    {arr : Cell} (hmem : b ∈ dc.mtimesSet) :
    WF (writeResident dc pix b arr) := by
  obtain ⟨h1, h2, h3, h4, h5⟩ := hwf
  refine ⟨?_, ?_, h3, ?_, h5⟩
  · simpa [writeResident, modN_length] using h1
  · exact modN_forall (fun s hs => (writeMaskSlab_length b arr _ s).trans hs) h2
  · show insert b dc.mtimesSet = (dc.mtimes.map Prod.fst).toFinset
    rw [Finset.insert_eq_self.mpr hmem]
    exact h4

theorem wf_evictInsert {dc : DataContainer} (hwf : WF dc) {pix : ℕ} {b : ℤ}
    {t : ℚ} {arr : Cell} {m0 : ℤ × ℚ} {rest : List (ℤ × ℚ)}
    (hmt : dc.mtimes = m0 :: rest) (hmem : b ∉ dc.mtimesSet) :
    WF (evictInsert dc pix m0 rest b t arr) := by
  obtain ⟨h1, h2, h3, h4, h5⟩ := hwf
  have hb : b ∉ dc.mtimes.map Prod.fst := by
    intro hmem'
    exact hmem (h4 ▸ List.mem_toFinset.mpr hmem')
  have hrest : b ∉ rest.map Prod.fst := by
    intro hx
    exact hb (by simp [hmt, hx])
  have h3' : (m0.1 :: rest.map Prod.fst).Nodup := by
    have := h3
    rw [hmt] at this
    simpa using this
  have h01 : m0.1 ∉ rest.map Prod.fst := (List.nodup_cons.mp h3').1
  have hT : ∀ s ∈ dc.data.map roll1, s.length = (rest ++ [(b, t)]).length := by
    intro s hs
    rcases List.mem_map.mp hs with ⟨s0, hs0, rfl⟩
    rw [roll1_length, h2 s0 hs0, hmt]
    simp
  refine ⟨?_, ?_, ?_, ?_, ?_⟩
  · simpa [evictInsert, modN_length] using h1
  · exact modN_forall (fun s hs => (List.length_set s _ _).trans hs) hT
  · show ((rest ++ [(b, t)]).map Prod.fst).Nodup
    simp [List.nodup_append, (List.nodup_cons.mp h3').2, hrest]
  · show insert b (dc.mtimesSet.erase m0.1) =
      ((rest ++ [(b, t)]).map Prod.fst).toFinset
    rw [h4, hmt]
    ext x
    simp only [List.map_cons, List.map_append, List.toFinset_cons,
      Finset.mem_insert, Finset.mem_erase, List.mem_toFinset,
      List.toFinset_append, Finset.mem_union, List.map_nil,
      List.mem_singleton, List.toFinset_nil, insert_emptyc_eq,
      Finset.mem_singleton]
    constructor
    · rintro (rfl | ⟨hne, (rfl | hx)⟩)
      · simp
      · exact absurd rfl hne
      · exact Or.inl hx
    · rintro (hx | rfl)
      · exact Or.inr ⟨fun he => h01 (he ▸ hx), Or.inr hx⟩
      · exact Or.inl rfl
  · show (rest ++ [(b, t)]).length ≤ dc.historySize
    rw [hmt] at h5
    simpa using h5

theorem wf_appendInsert {dc : DataContainer} (hwf : WF dc) {pix : ℕ} {b : ℤ}
    {t : ℚ} {arr : Cell} (hmem : b ∉ dc.mtimesSet)
    (hlen : dc.mtimes.length ≠ dc.historySize) :
    WF (appendInsert dc pix b t arr) := by
  obtain ⟨h1, h2, h3, h4, h5⟩ := hwf
  have hb : b ∉ dc.mtimes.map Prod.fst := by
    intro hmem'
    exact hmem (h4 ▸ List.mem_toFinset.mpr hmem')
  have hT : ∀ s ∈ dc.data.map (fun s => s ++ [List.replicate dc.sampleSize none]),
      s.length = (dc.mtimes ++ [(b, t)]).length := by
    intro s hs
    rcases List.mem_map.mp hs with ⟨s0, hs0, rfl⟩
    simp [h2 s0 hs0]
  refine ⟨?_, ?_, ?_, ?_, ?_⟩
  · simpa [appendInsert, modN_length] using h1
  · exact modN_forall (fun s hs => (List.length_set s _ _).trans hs) hT
  · show ((dc.mtimes ++ [(b, t)]).map Prod.fst).Nodup
    simp [List.nodup_append, h3, hb]
  · show insert b dc.mtimesSet =
      ((dc.mtimes ++ [(b, t)]).map Prod.fst).toFinset
    rw [h4]
    ext x
    simp only [Finset.mem_insert, List.mem_toFinset, List.map_append,
      List.mem_append, List.map_cons, List.map_nil, List.mem_singleton]
    tauto
  · show (dc.mtimes ++ [(b, t)]).length ≤ dc.historySize
    simp only [List.length_append, List.length_singleton]
    omega

theorem wf_processEntryB_ok {dc dc' : DataContainer} {pix : ℕ} {t : ℚ}
    {b : ℤ} {load : LoadResult} (hwf : WF dc)
    (h : processEntryB dc pix t b load = .ok dc') : WF dc' := by
  rcases processEntryB_ok_cases h with ⟨rfl, -⟩ | ⟨arr, -, hmem, rfl⟩ |
    ⟨arr, m0, rest, -, hmt, hmem, -, -, rfl⟩ | ⟨arr, -, hmem, hlen, rfl⟩
  · exact hwf
  · exact wf_writeResident hwf hmem
  · exact wf_evictInsert hwf hmt hmem
  · exact wf_appendInsert hwf hmem hlen

theorem wf_runEntries {pix : ℕ} {dc : DataContainer}
    {es : List (ℚ × LoadResult)} (hwf : WF dc) :
    WF (runEntries pix dc es).1 := by
  induction es generalizing dc with
  | nil => exact hwf
  | cons e es ih =>
    show WF (runEntries pix dc (e :: es)).1
    rw [runEntries]
    cases h : processEntry dc pix e.1 e.2 with
    | ok dc' => exact ih (wf_processEntryB_ok hwf h)
    | error err => exact hwf

theorem wf_addIfNew {dc : DataContainer} (hwf : WF dc) (source : String) :
    WF (addIfNew dc source) := by
  obtain ⟨h1, h2, h3, h4, h5⟩ := hwf
  unfold addIfNew
  split
  · exact ⟨h1, h2, h3, h4, h5⟩
  · refine ⟨by simp [h1], ?_, h3, h4, h5⟩
    intro slab hs
    rcases List.mem_append.mp hs with hs | hs
    · exact h2 slab hs
    · simp only [List.mem_singleton] at hs
      simp [hs]

/-- Zeta-reduced form of update, convenient for rewriting; addIfNew does not
touch paths, so the early-return test reads the original paths list. -/
theorem update_eq (dc0 : DataContainer) (source : String)
    (entries : List (ℚ × LoadResult)) :
    update dc0 source entries =
      if (addIfNew dc0 source).paths = [] then (addIfNew dc0 source, none)
      else runEntries (pixOf dc0 source) (addIfNew dc0 source)
        (recentOf (addIfNew dc0 source).historySize (sortEntries entries)) :=
  rfl

theorem wf_update {dc : DataContainer} (hwf : WF dc) (source : String)
    (entries : List (ℚ × LoadResult)) : WF (update dc source entries).1 := by
  rw [update_eq]
  split
  · exact wf_addIfNew hwf source
  · exact wf_runEntries (wf_addIfNew hwf source)

theorem config_runEntries {pix : ℕ} {dc : DataContainer}
    {es : List (ℚ × LoadResult)} :
    (runEntries pix dc es).1.binWidth = dc.binWidth ∧
    (runEntries pix dc es).1.historySize = dc.historySize ∧
    (runEntries pix dc es).1.sampleSize = dc.sampleSize ∧
    (runEntries pix dc es).1.paths = dc.paths ∧
    (runEntries pix dc es).1.sources = dc.sources := by
  induction es generalizing dc with
  | nil => exact ⟨rfl, rfl, rfl, rfl, rfl⟩
  | cons e es ih =>
    show _ ∧ _ ∧ _ ∧ _ ∧ (runEntries pix dc (e :: es)).1.sources = _
    rw [runEntries]
    cases h : processEntry dc pix e.1 e.2 with
    | ok dc' =>
      obtain ⟨c1, c2, c3, c4, c5⟩ := processEntryB_ok_config h
      obtain ⟨d1, d2, d3, d4, d5⟩ := @ih dc'
      exact ⟨d1.trans c1, d2.trans c2, d3.trans c3, d4.trans c4, d5.trans c5⟩
    | error err => exact ⟨rfl, rfl, rfl, rfl, rfl⟩

/-!
Idempotence of re-ingesting the same entry (spec section 8, first testable
property).
-/

theorem modN_congr {f g : α → α} (h : ∀ a, f a = g a) (n : ℕ) (l : List α) :
    modN f n l = modN g n l := by
  induction l generalizing n with
  | nil => cases n <;> rfl
  | cons c l ih => cases n with
    | zero => simp [modN, h c]
    | succ n => simp [modN, ih n]

theorem modN_get?_self (f : α → α) (n : ℕ) (l : List α) :
    (modN f n l).get? n = (l.get? n).map f := by
  induction l generalizing n with
  | nil => cases n <;> rfl
  | cons c l ih => cases n with
    | zero => rfl
    | succ n => simpa [modN] using ih n

/-- After writing arr at the position of the appended identifier b, every
position of the mask of b holds arr (b does not occur among the other
identifiers). -/
theorem zip_set_last {b : ℤ} {arr : Cell} {ids : List ℤ}
    (hb : b ∉ ids) :
    ∀ {s : Slab}, s.length = ids.length + 1 →
      ∀ p ∈ (ids ++ [b]).zip (s.set ids.length arr), p.1 = b → p.2 = arr := by
  induction ids with
  | nil =>
    intro s hs p hp h1
    match s, hs with
    | [c], _ =>
      simp only [List.nil_append, List.set] at hp
      simp only [List.zip, List.zipWith, List.mem_singleton] at hp
      rw [hp]
  | cons i is ih =>
    intro s hs p hp h1
    match s, hs with
    | c :: cs, hs =>
      have hs' : cs.length = is.length + 1 := by
        simpa using hs
      simp only [List.cons_append, List.length_cons, List.set] at hp
      rcases (by simpa [List.zip] using hp :
          p = (i, c) ∨ p ∈ (is ++ [b]).zip (cs.set is.length arr)) with rfl | hp'
      · exact absurd (h1 ▸ List.mem_cons_self i is) hb
      · exact ih (fun hx => hb (List.mem_cons_of_mem i hx)) hs' p hp' h1

/-- Re-running a successful per-entry step on its own result leaves the
state unchanged: the skip test fires, or the same vector is rewritten over
itself. -/
theorem processEntryB_idem {dc dc₁ : DataContainer} {pix : ℕ} {t : ℚ}
    {b : ℤ} {arr : Cell} (hwf : WF dc)
    (h : processEntryB dc pix t b (.ok arr) = .ok dc₁) :
    processEntryB dc₁ pix t b (.ok arr) = .ok dc₁ := by
  obtain ⟨h1, h2, h3, h4, h5⟩ := hwf
  rcases processEntryB_ok_cases h with ⟨rfl, -⟩ | ⟨arr', harr, hmem, rfl⟩ |
    ⟨arr', m0, rest, harr, hmt, hmem, hlen, h0, rfl⟩ |
    ⟨arr', harr, hmem, hlen, rfl⟩
  · exact h
  all_goals injection harr with harr
  all_goals subst harr
  -- resident re-write
  · have hb1 : b ∈ (writeResident dc pix b arr).mtimesSet :=
      Finset.mem_insert_self b dc.mtimesSet
    cases hw1 : anyWrittenAt (writeResident dc pix b arr) pix b with
    | true => exact processEntryB_skip hb1 hw1
    | false =>
      rw [processEntryB_resident hb1 hw1]
      have hdata : modN (writeMaskSlab b arr (dc.mtimes.map Prod.fst)) pix
          (modN (writeMaskSlab b arr (dc.mtimes.map Prod.fst)) pix dc.data) =
          modN (writeMaskSlab b arr (dc.mtimes.map Prod.fst)) pix dc.data := by
        rw [modN_modN]
        exact modN_congr (fun s => writeMaskSlab_idem b arr _ s) pix dc.data
      show Except.ok _ = _
      congr 1
      ext : 1 <;> try rfl
      · show insert b (insert b dc.mtimesSet) = insert b dc.mtimesSet
        exact Finset.insert_idem b dc.mtimesSet
      · exact hdata
  -- re-write after eviction
  · have hrest : b ∉ rest.map Prod.fst := by
      intro hx
      exact hmem (h4 ▸ List.mem_toFinset.mpr (by simp [hmt, hx]))
    have hb1 : b ∈ (evictInsert dc pix m0 rest b t arr).mtimesSet :=
      Finset.mem_insert_self b _
    cases hw1 : anyWrittenAt (evictInsert dc pix m0 rest b t arr) pix b with
    | true => exact processEntryB_skip hb1 hw1
    | false =>
      rw [processEntryB_resident hb1 hw1]
      show Except.ok _ = _
      congr 1
      ext : 1 <;> try rfl
      · show insert b (insert b _) = insert b _
        exact Finset.insert_idem b _
      · show modN (writeMaskSlab b arr
            ((evictInsert dc pix m0 rest b t arr).mtimes.map Prod.fst)) pix
            (evictInsert dc pix m0 rest b t arr).data =
          (evictInsert dc pix m0 rest b t arr).data
        refine modN_eq_self ?_
        intro a ha
        have hmap : ((evictInsert dc pix m0 rest b t arr).mtimes.map Prod.fst)
            = rest.map Prod.fst ++ [b] := by
          show (rest ++ [(b, t)]).map Prod.fst = _
          simp
        rw [hmap]
        rw [show (evictInsert dc pix m0 rest b t arr).data =
          modN (fun s => s.set rest.length arr) pix (dc.data.map roll1) from rfl,
          modN_get?_self, List.get?_map] at ha
        cases hget : dc.data.get? pix with
        | none => rw [hget] at ha; exact absurd ha (by simp)
        | some s =>
          rw [hget] at ha
          simp only [Option.map_some'] at ha
          have hsl : (roll1 s).length = (rest.map Prod.fst).length + 1 := by
            rw [roll1_length, h2 s (List.get?_mem hget), hmt]
            simp
          have := @zip_set_last b arr (List.map Prod.fst rest) hrest (roll1 s) hsl
          injection ha with ha
          rw [show rest.length = (rest.map Prod.fst).length by simp] at ha
          refine writeMaskSlab_eq_self ?_
          rw [ha] at this
          exact this
  -- re-write after append
  · have hids : b ∉ dc.mtimes.map Prod.fst := by
      intro hx
      exact hmem (h4 ▸ List.mem_toFinset.mpr hx)
    have hb1 : b ∈ (appendInsert dc pix b t arr).mtimesSet :=
      Finset.mem_insert_self b _
    cases hw1 : anyWrittenAt (appendInsert dc pix b t arr) pix b with
    | true => exact processEntryB_skip hb1 hw1
    | false =>
      rw [processEntryB_resident hb1 hw1]
      show Except.ok _ = _
      congr 1
      ext : 1 <;> try rfl
      · show insert b (insert b _) = insert b _
        exact Finset.insert_idem b _
      · show modN (writeMaskSlab b arr
            ((appendInsert dc pix b t arr).mtimes.map Prod.fst)) pix
            (appendInsert dc pix b t arr).data =
          (appendInsert dc pix b t arr).data
        refine modN_eq_self ?_
        intro a ha
        have hmap : ((appendInsert dc pix b t arr).mtimes.map Prod.fst)
            = dc.mtimes.map Prod.fst ++ [b] := by
          show (dc.mtimes ++ [(b, t)]).map Prod.fst = _
          simp
        rw [hmap]
        rw [show (appendInsert dc pix b t arr).data =
          modN (fun s => s.set dc.mtimes.length arr) pix
            (dc.data.map (fun s => s ++ [List.replicate dc.sampleSize none]))
          from rfl, modN_get?_self, List.get?_map] at ha
        cases hget : dc.data.get? pix with
        | none => rw [hget] at ha; exact absurd ha (by simp)
        | some s =>
          rw [hget] at ha
          simp only [Option.map_some'] at ha
          have hsl : (s ++ [List.replicate dc.sampleSize none]).length =
              (dc.mtimes.map Prod.fst).length + 1 := by
            simp [h2 s (List.get?_mem hget)]
          have := @zip_set_last b arr (List.map Prod.fst dc.mtimes) hids (s ++ [List.replicate dc.sampleSize none]) hsl
          injection ha with ha
          rw [show dc.mtimes.length = (dc.mtimes.map Prod.fst).length by simp]
            at ha
          refine writeMaskSlab_eq_self ?_
          rw [ha] at this
          exact this

theorem processEntry_idem {dc dc₁ : DataContainer} {pix : ℕ} {t : ℚ}
    {arr : Cell} (hwf : WF dc)
    (h : processEntry dc pix t (.ok arr) = .ok dc₁) :
    processEntry dc₁ pix t (.ok arr) = .ok dc₁ := by
  have hbw : dc₁.binWidth = dc.binWidth := (processEntryB_ok_config h).1
  unfold processEntry at h ⊢
  rw [hbw]
  exact processEntryB_idem hwf h

theorem runEntries_cons_ok {pix : ℕ} {dc dc₁ : DataContainer}
    {e : ℚ × LoadResult} {es : List (ℚ × LoadResult)}
    (h : processEntry dc pix e.1 e.2 = .ok dc₁) :
    runEntries pix dc (e :: es) = runEntries pix dc₁ es := by
  rw [runEntries, h]

theorem runEntries_cons_err {pix : ℕ} {dc : DataContainer}
    {e : ℚ × LoadResult} {es : List (ℚ × LoadResult)} {err : PyErr}
    (h : processEntry dc pix e.1 e.2 = .error err) :
    runEntries pix dc (e :: es) = (dc, some err) := by
  rw [runEntries, h]

theorem addIfNew_of_mem {dc : DataContainer} {source : String}
    (h : source ∈ dc.sources) : addIfNew dc source = dc := by
  simp [addIfNew, h]

theorem mem_sources_addIfNew (dc : DataContainer) (source : String) :
    source ∈ (addIfNew dc source).sources := by
  unfold addIfNew
  split
  · assumption
  · simp

theorem pixOf_eq_of_sources {dc₁ dc₂ : DataContainer} (source : String)
    (h : dc₁.sources = dc₂.sources) : pixOf dc₁ source = pixOf dc₂ source := by
  unfold pixOf
  rw [h]

theorem pixOf_addIfNew (dc : DataContainer) (source : String) :
    pixOf (addIfNew dc source) source = pixOf dc source := by
  by_cases hm : source ∈ dc.sources
  · rw [addIfNew_of_mem hm]
  · unfold pixOf addIfNew
    rw [if_neg hm, if_neg hm]
    simp only [List.mem_append, List.mem_singleton, or_true, if_true, hm]
    rw [List.indexOf_append_of_not_mem hm]
    simp [List.indexOf_cons_self]

theorem sortEntries_pair (e : ℚ × LoadResult) :
    sortEntries [e, e] = [e, e] := by
  simp [sortEntries, List.insertionSort, List.orderedInsert]

theorem recentOf_singleton (h : ℕ) (e : ℚ × LoadResult) :
    recentOf h [e] = [e] := by
  unfold recentOf
  split
  · rfl
  · rename_i hne
    cases h with
    | zero => exact absurd rfl hne
    | succ n => simp

/-- Within one ingest call, a duplicated entry behaves as a single one. -/
theorem runEntries_dup {pix : ℕ} {dc : DataContainer} {t : ℚ} {arr : Cell}
    (hwf : WF dc) (es : List (ℚ × LoadResult)) :
    runEntries pix dc ((t, .ok arr) :: (t, .ok arr) :: es) =
      runEntries pix dc ((t, .ok arr) :: es) := by
  cases h : processEntry dc pix t (.ok arr) with
  | ok dc₁ =>
    rw [runEntries_cons_ok h, runEntries_cons_ok (processEntry_idem hwf h),
      runEntries_cons_ok h]
  | error err =>
    rw [runEntries_cons_err h, runEntries_cons_err h]

/-- C6: idempotent ingestion: for a well-formed store, ingesting the same
(timestamp, array) entry twice for a source, within one ingest call or
across two calls, leaves the whole store (cube contents and bin table)
identical to ingesting it once. -/
theorem update_idem (dc : DataContainer) (source : String) (t : ℚ)
    (arr : Cell) (hwf : WF dc) :
    update dc source [(t, .ok arr), (t, .ok arr)] =
      update dc source [(t, .ok arr)] ∧
    update (update dc source [(t, .ok arr)]).1 source [(t, .ok arr)] =
      update dc source [(t, .ok arr)] := by
  have hwfA := wf_addIfNew hwf source
  have hmemA := mem_sources_addIfNew dc source
  have hpix := pixOf_addIfNew dc source
  constructor
  · rw [update_eq, update_eq]
    by_cases hp : (addIfNew dc source).paths = []
    · rw [if_pos hp, if_pos hp]
    · rw [if_neg hp, if_neg hp, sortEntries_pair,
        show sortEntries [(t, .ok arr)] = [(t, .ok arr)] from rfl,
        recentOf_singleton]
      rcases hh : (addIfNew dc source).historySize with _ | n
      · show runEntries _ _ (recentOf 0 _) = _
        rw [show recentOf 0 [(t, .ok arr), (t, .ok arr)] =
          [(t, .ok arr), (t, .ok arr)] from rfl]
        exact runEntries_dup hwfA _
      · cases n with
        | zero =>
          show runEntries _ _ (recentOf 1 _) = _
          rw [show recentOf 1 [(t, .ok arr), (t, .ok arr)] =
            [(t, .ok arr)] from rfl]
        | succ m =>
          show runEntries _ _ (recentOf (m + 2) _) = _
          rw [show recentOf (m + 2) [(t, .ok arr), (t, .ok arr)] =
            [(t, .ok arr), (t, .ok arr)] by simp [recentOf]]
          exact runEntries_dup hwfA _
  · have hupd : update dc source [(t, .ok arr)] =
        if (addIfNew dc source).paths = [] then (addIfNew dc source, none)
        else runEntries (pixOf dc source) (addIfNew dc source)
          [(t, .ok arr)] := by
      rw [update_eq, show sortEntries [(t, .ok arr)] = [(t, .ok arr)] from rfl,
        recentOf_singleton]
    by_cases hp : (addIfNew dc source).paths = []
    · rw [hupd, if_pos hp]
      show update (addIfNew dc source) source [(t, .ok arr)] = _
      rw [update_eq, addIfNew_of_mem hmemA, if_pos hp]
    · rw [hupd, if_neg hp]
      cases h : processEntry (addIfNew dc source) (pixOf dc source) t
          (.ok arr) with
      | ok dc₁ =>
        rw [runEntries_cons_ok h]
        show update dc₁ source [(t, .ok arr)] = (dc₁, none)
        obtain ⟨-, -, -, hpaths, hsrcs⟩ := processEntryB_ok_config h
        have hsrcsA : dc₁.sources = (addIfNew dc source).sources := hsrcs
        have hmem₁ : source ∈ dc₁.sources := hsrcsA ▸ hmemA
        have hpix₁ : pixOf dc₁ source = pixOf dc source :=
          (pixOf_eq_of_sources source hsrcsA).trans hpix
        rw [update_eq, addIfNew_of_mem hmem₁,
          if_neg (by rw [hpaths]; exact hp),
          show sortEntries [(t, .ok arr)] = [(t, .ok arr)] from rfl,
          recentOf_singleton, hpix₁,
          runEntries_cons_ok (processEntry_idem hwfA h)]
        rfl
      | error err =>
        rw [runEntries_cons_err h]
        show update (addIfNew dc source) source [(t, .ok arr)] = _
        rw [update_eq, addIfNew_of_mem hmemA, if_neg hp,
          show sortEntries [(t, .ok arr)] = [(t, .ok arr)] from rfl,
          recentOf_singleton, hpix, runEntries_cons_err h]

/-- Reduction of an ingest call with one entry for a registered source. -/
theorem update_singleton_of_mem {dc : DataContainer} {source : String}
    {t : ℚ} {l : LoadResult} (hs : source ∈ dc.sources)
    (hp : dc.paths ≠ []) :
    update dc source [(t, l)] =
      match processEntry dc (pixOf dc source) t l with
      | .ok dc₁ => (dc₁, none)
      | .error err => (dc, some err) := by
  rw [update_eq, addIfNew_of_mem hs, if_neg hp,
    show sortEntries [(t, l)] = [(t, l)] from rfl, recentOf_singleton]
  cases h : processEntry dc (pixOf dc source) t l with
  | ok dc₁ => rw [runEntries_cons_ok h]; rfl
  | error err => rw [runEntries_cons_err h]

theorem wf_runBatches {dc : DataContainer}
    {bs : List (String × List (ℚ × LoadResult))} (hwf : WF dc) :
    WF (runBatches dc bs) := by
  induction bs generalizing dc with
  | nil => exact hwf
  | cons p bs ih => exact ih (wf_update hwf p.1 p.2)

/-!
Lemmas about index-mask filtering (np.delete on the time axis).
-/

theorem filterIdxAux_sublist (p : ℕ → Bool) (l : List α) :
    ∀ i, List.Sublist (filterIdxAux p i l) l := by
  induction l with
  | nil => intro i; exact List.Sublist.refl []
  | cons a l ih =>
    intro i
    unfold filterIdxAux
    split
    · exact (ih (i + 1)).cons₂ a
    · exact (ih (i + 1)).cons a

theorem count_filterIdxAux [DecidableEq α] (p : ℕ → Bool) (l : List α)
    (x : α) : ∀ i,
    (filterIdxAux p i l).count x +
      (filterIdxAux (fun j => ! p j) i l).count x = l.count x := by
  induction l with
  | nil => intro i; rfl
  | cons a l ih =>
    intro i
    cases hpi : p i with
    | true =>
      simp [filterIdxAux, hpi, List.count_cons]
      have := ih (i + 1)
      omega
    | false =>
      simp [filterIdxAux, hpi, List.count_cons]
      have := ih (i + 1)
      omega

theorem map_filterIdxAux (f : α → β) (p : ℕ → Bool) (l : List α) :
    ∀ i, (filterIdxAux p i l).map f = filterIdxAux p i (l.map f) := by
  induction l with
  | nil => intro i; rfl
  | cons a l ih =>
    intro i
    cases hpi : p i <;> simp [filterIdxAux, hpi, ih (i + 1)]

theorem length_filterIdxAux_eq (p : ℕ → Bool) :
    ∀ (l₁ : List α) (l₂ : List β), l₁.length = l₂.length → ∀ i,
      (filterIdxAux p i l₁).length = (filterIdxAux p i l₂).length := by
  intro l₁
  induction l₁ with
  | nil =>
    intro l₂ h i
    cases l₂ with
    | nil => rfl
    | cons b l₂ => exact absurd h (by simp)
  | cons a l₁ ih =>
    intro l₂ h i
    cases l₂ with
    | nil => exact absurd h (by simp)
    | cons b l₂ =>
      have h' : l₁.length = l₂.length := by simpa using h
      cases hpi : p i <;> simp [filterIdxAux, hpi, ih l₂ h' (i + 1)]

/-- Every position of a filtered list corresponds to a kept position of the
original, and the correspondence depends only on the mask, so it carries
over to every parallel list of the same length (the bin table and each cube
row are filtered in alignment). -/
theorem filterIdxAux_getD_all (p : ℕ → Bool) :
    ∀ (l₁ : List α) (i k : ℕ) (d₁ : α),
      k < (filterIdxAux p i l₁).length →
      ∃ j, j < l₁.length ∧ p (i + j) = true ∧
        (filterIdxAux p i l₁).getD k d₁ = l₁.getD j d₁ ∧
        ∀ {β : Type} (l₂ : List β) (d₂ : β), l₂.length = l₁.length →
          (filterIdxAux p i l₂).getD k d₂ = l₂.getD j d₂ := by
  intro l₁
  induction l₁ with
  | nil =>
    intro i k d₁ hk
    simp [filterIdxAux] at hk
  | cons a l₁ ih =>
    intro i k d₁ hk
    cases hpi : p i with
    | true =>
      cases k with
      | zero =>
        refine ⟨0, by simp, by simpa using hpi, by simp [filterIdxAux, hpi], ?_⟩
        intro β l₂ d₂ hlen
        cases l₂ with
        | nil => exact absurd hlen (by simp)
        | cons b l₂ => simp [filterIdxAux, hpi]
      | succ k =>
        have hk' : k < (filterIdxAux p (i + 1) l₁).length := by
          simpa [filterIdxAux, hpi] using hk
        obtain ⟨j, hj, hpj, h1, h2⟩ := ih (i + 1) k d₁ hk'
        refine ⟨j + 1, by simpa using hj, ?_, ?_, ?_⟩
        · rw [show i + (j + 1) = i + 1 + j by omega]
          exact hpj
        · simpa [filterIdxAux, hpi] using h1
        · intro β l₂ d₂ hlen
          cases l₂ with
          | nil => exact absurd hlen (by simp)
          | cons b l₂ =>
            have : (filterIdxAux p (i + 1) l₂).getD k d₂ = l₂.getD j d₂ :=
              h2 l₂ d₂ (by simpa using hlen)
            simpa [filterIdxAux, hpi] using this
    | false =>
      have hk' : k < (filterIdxAux p (i + 1) l₁).length := by
        simpa [filterIdxAux, hpi] using hk
      obtain ⟨j, hj, hpj, h1, h2⟩ := ih (i + 1) k d₁ hk'
      refine ⟨j + 1, by simpa using hj, ?_, ?_, ?_⟩
      · rw [show i + (j + 1) = i + 1 + j by omega]
        exact hpj
      · simpa [filterIdxAux, hpi] using h1
      · intro β l₂ d₂ hlen
        cases l₂ with
        | nil => exact absurd hlen (by simp)
        | cons b l₂ =>
          have : (filterIdxAux p (i + 1) l₂).getD k d₂ = l₂.getD j d₂ :=
            h2 l₂ d₂ (by simpa using hlen)
          simpa [filterIdxAux, hpi] using this

/-- A dropped position's element occurs in the complementary filter. -/
theorem getD_mem_filterIdxAux (p : ℕ → Bool) (l : List α) :
    ∀ i j d, j < l.length → p (i + j) = true →
      l.getD j d ∈ filterIdxAux p i l := by
  induction l with
  | nil => intro i j d hj; simp at hj
  | cons a l ih =>
    intro i j d hj hpj
    cases j with
    | zero =>
      have : p i = true := by simpa using hpj
      simp [filterIdxAux, this]
    | succ j =>
      have hj' : j < l.length := by simpa using hj
      have hpj' : p (i + 1 + j) = true := by
        rw [show i + 1 + j = i + (j + 1) by omega]
        exact hpj
      have hmem := ih (i + 1) j d hj' hpj'
      rw [List.getD_cons_succ]
      show l.getD j d ∈ filterIdxAux p i (a :: l)
      unfold filterIdxAux
      cases hpi : p i with
      | true =>
        rw [if_pos rfl]
        exact List.mem_cons_of_mem a hmem
      | false =>
        rw [if_neg (by simp)]
        exact hmem

/-- The kept identifiers are exactly the original ones minus the dropped
ones, provided the identifiers are distinct. -/
theorem toFinset_filterIdx_sdiff [DecidableEq α] {l : List α} (hn : l.Nodup)
    (p : ℕ → Bool) :
    l.toFinset \ (filterIdx (fun j => ! p j) l).toFinset =
      (filterIdx p l).toFinset := by
  ext x
  have hcount := count_filterIdxAux p l x 0
  have hle : l.count x ≤ 1 := List.nodup_iff_count_le_one.mp hn x
  have hkept : x ∈ filterIdx p l ↔ 0 < (filterIdx p l).count x := by
    rw [List.count_pos_iff]
  have hdrop : x ∈ filterIdx (fun j => ! p j) l ↔
      0 < (filterIdx (fun j => ! p j) l).count x := by
    rw [List.count_pos_iff]
  have hl : x ∈ l ↔ 0 < l.count x := by rw [List.count_pos_iff]
  simp only [Finset.mem_sdiff, List.mem_toFinset]
  rw [hkept, hdrop, hl]
  unfold filterIdx at hcount ⊢
  omega

/-!
Query lemmas.
-/

set_option maxHeartbeats 1000000 in
/-- C10: query never mutates the store: every exit of the method pairs its
result with the unchanged container, whether it returns rows, returns the
empty result, or fails; registry, bin table, resident set and cube are
exactly the state before the call. -/
theorem latest_state_eq (dc : DataContainer) (selection : List String)
    (mode : String) (window : ℤ) :
    (latest dc selection mode window).2 = dc := by
  unfold latest
  repeat' split
  all_goals rfl

/-- The resampling tail can fail only on a negative sample count, never
with the aggregate-mode error of the guards. -/
theorem interpTail_ne_mode_error (dc : DataContainer) (w : ℤ)
    (wm : List ℚ) (V : List Cell) (m : String) :
    interpTail dc w wm V ≠ .error (.valueErrorUnexpectedMode m) := by
  simp only [interpTail]
  split <;> simp

set_option maxHeartbeats 1000000 in
/-- C4 (amended): query performs no window validation and no
InvalidArgument error exists; with window below 1 both aggregate-mode
guards are skipped as well, so no call with window below 1 is rejected
with the unexpected-aggregate-mode ValueError, whatever the store, the
selection and the mode string (the call returns a result or fails later in
resampling). -/
theorem latest_no_mode_error_of_window_nonpos (dc : DataContainer)
    (selection : List String) (mode : String) (window : ℤ)
    (hw : window ≤ 0) (m : String) :
    (latest dc selection mode window).1 ≠
      .error (.valueErrorUnexpectedMode m) := by
  unfold latest
  repeat' split
  all_goals first
    | (exfalso; omega)
    | (exact fun hcontra => interpTail_ne_mode_error _ _ _ _ _ hcontra)
    | simp

/-- C5 (amended): when the emptiness early-returns do not fire (store
non-empty, selection row-matching, window slab not all-NaN), the
aggregate-mode guards reject mode none with window above 1, any mode
outside the supported set with window above 1, and any mode outside
none/mean/sum/max with window equal to 1; the emptiness early returns take
precedence, and with window below 1 no mode validation occurs at all. -/
theorem latest_mode_guard (dc : DataContainer) (selection : List String)
    (mode : String) (window : ℤ)
    (h1 : numel3 dc.data ≠ 0)
    (h2 : numel3 (selectData dc selection) ≠ 0)
    (h3 : ¬ allNan3 (windowDataOf dc selection window) = true)
    (h4 : (window = 1 ∧ mode ∉ (["none", "mean", "sum", "max"] : List String)) ∨
      (1 < window ∧ mode ∉ (["mean", "sum", "max"] : List String))) :
    (latest dc selection mode window).1 =
      .error (.valueErrorUnexpectedMode mode) := by
  unfold latest
  rw [if_neg h1, if_neg h2, if_neg h3]
  rcases h4 with ⟨hw, hm⟩ | ⟨hw, hm⟩
  · rw [if_pos ⟨hw, hm⟩]
  · rw [if_neg (fun hc => by omega : ¬ (window = 1 ∧
      mode ∉ (["none", "mean", "sum", "max"] : List String))),
      if_pos ⟨hw, hm⟩]

/-!
Source removal lemmas.
-/

theorem wf_eraseSource {dc : DataContainer} {source : String} (hwf : WF dc)
    (hs : source ∈ dc.sources) : WF (eraseSource dc source) := by
  obtain ⟨h1, h2, h3, h4, h5⟩ := hwf
  have hpix : dc.sources.indexOf source < dc.sources.length :=
    List.indexOf_lt_length.mpr hs
  have hpixd : dc.sources.indexOf source < dc.data.length := by omega
  refine ⟨?_, ?_, h3, h4, h5⟩
  · show (dc.data.eraseIdx _).length = (dc.sources.eraseIdx _).length
    have e1 := List.length_eraseIdx_add_one hpixd
    have e2 := List.length_eraseIdx_add_one hpix
    omega
  · intro slab hsl
    exact h2 slab ((List.eraseIdx_sublist dc.data
      (dc.sources.indexOf source)).subset hsl)

/-- Garbage collection of all-NaN time positions: every surviving position
has a non-NaN witness in some row, well-formedness is preserved, and every
dropped identifier leaves the resident set. -/
theorem removeNan_props {dc : DataContainer} (hwf : WF dc) :
    (∀ tix, tix < (removeNanSamples dc).mtimes.length →
      ∃ pix, pix < (removeNanSamples dc).data.length ∧
        (((removeNanSamples dc).data.getD pix []).getD tix []).any
          Option.isSome = true) ∧
    WF (removeNanSamples dc) ∧
    (∀ i, i < dc.mtimes.length → keepSample dc i = false →
      (dc.mtimes.getD i (0, 0)).1 ∉ (removeNanSamples dc).mtimesSet) := by
  obtain ⟨h1, h2, h3, h4, h5⟩ := hwf
  have hmapfst : (filterIdx (keepSample dc) dc.mtimes).map Prod.fst =
      filterIdx (keepSample dc) (dc.mtimes.map Prod.fst) :=
    map_filterIdxAux Prod.fst (keepSample dc) dc.mtimes 0
  refine ⟨?_, ⟨?_, ?_, ?_, ?_, ?_⟩, ?_⟩
  · intro tix htix
    obtain ⟨j, hj, hpj, -, hall⟩ := filterIdxAux_getD_all (keepSample dc)
      dc.mtimes 0 tix (0, 0) htix
    rw [Nat.zero_add] at hpj
    obtain ⟨slab, hmem, hslab⟩ := List.any_eq_true.mp hpj
    obtain ⟨pix, hpixget⟩ := List.mem_iff_getElem?.mp hmem
    have hpixlt : pix < dc.data.length := by
      by_contra hge
      rw [List.getElem?_eq_none (by omega)] at hpixget
      exact Option.noConfusion hpixget
    refine ⟨pix, by simpa [removeNanSamples] using hpixlt, ?_⟩
    have hdgd : (removeNanSamples dc).data.getD pix [] =
        filterIdx (keepSample dc) slab := by
      show (dc.data.map (fun slab => filterIdx (keepSample dc) slab)).getD
        pix [] = _
      rw [List.getD_eq_getElem _ _ (by simpa using hpixlt),
        List.getElem_map]
      congr 1
      have := List.getElem?_eq_getElem hpixlt
      rw [this] at hpixget
      exact Option.some.inj hpixget
    rw [hdgd]
    unfold filterIdx
    rw [hall slab [] (h2 slab hmem)]
    exact hslab
  · show (dc.data.map _).length = dc.sources.length
    simpa using h1
  · intro slab hsl
    rcases List.mem_map.mp hsl with ⟨s0, hs0, rfl⟩
    exact length_filterIdxAux_eq (keepSample dc) s0 dc.mtimes (h2 s0 hs0) 0
  · show ((filterIdx (keepSample dc) dc.mtimes).map Prod.fst).Nodup
    rw [hmapfst]
    exact h3.sublist (filterIdxAux_sublist (keepSample dc)
      (dc.mtimes.map Prod.fst) 0)
  · show dc.mtimesSet \ (filterIdx (fun i => ! keepSample dc i)
        (dc.mtimes.map Prod.fst)).toFinset =
      ((filterIdx (keepSample dc) dc.mtimes).map Prod.fst).toFinset
    rw [h4, hmapfst]
    exact toFinset_filterIdx_sdiff h3 (keepSample dc)
  · show (filterIdx (keepSample dc) dc.mtimes).length ≤ dc.historySize
    exact le_trans (filterIdxAux_sublist (keepSample dc) dc.mtimes 0).length_le
      h5
  · intro i hi hkeep
    have hq : (fun j => ! keepSample dc j) (0 + i) = true := by
      simp [hkeep]
    have hmem := getD_mem_filterIdxAux (fun j => ! keepSample dc j)
      (dc.mtimes.map Prod.fst) 0 i 0 (by simpa using hi) hq
    have hgd : (dc.mtimes.map Prod.fst).getD i 0 =
        (dc.mtimes.getD i (0, 0)).1 := by
      rw [List.getD_eq_getElem _ _ (by simpa using hi), List.getElem_map,
        List.getD_eq_getElem _ _ hi]
    rw [hgd] at hmem
    intro hc
    rw [show (removeNanSamples dc).mtimesSet = dc.mtimesSet \
      (filterIdx (fun j => ! keepSample dc j)
        (dc.mtimes.map Prod.fst)).toFinset from rfl, Finset.mem_sdiff] at hc
    exact hc.2 (List.mem_toFinset.mpr hmem)

theorem config_update {dc : DataContainer} {source : String}
    {entries : List (ℚ × LoadResult)} :
    (update dc source entries).1.binWidth = dc.binWidth ∧
    (update dc source entries).1.historySize = dc.historySize ∧
    (update dc source entries).1.sampleSize = dc.sampleSize ∧
    (update dc source entries).1.paths = dc.paths := by
  have hA : (addIfNew dc source).binWidth = dc.binWidth ∧
      (addIfNew dc source).historySize = dc.historySize ∧
      (addIfNew dc source).sampleSize = dc.sampleSize ∧
      (addIfNew dc source).paths = dc.paths := by
    unfold addIfNew
    split <;> exact ⟨rfl, rfl, rfl, rfl⟩
  rw [update_eq]
  split
  · exact hA
  · obtain ⟨c1, c2, c3, c4, -⟩ := @config_runEntries (pixOf dc source)
      (addIfNew dc source)
      (recentOf (addIfNew dc source).historySize (sortEntries entries))
    exact ⟨c1.trans hA.1, c2.trans hA.2.1, c3.trans hA.2.2.1,
      c4.trans hA.2.2.2⟩

theorem historySize_runBatches (dc : DataContainer)
    (bs : List (String × List (ℚ × LoadResult))) :
    (runBatches dc bs).historySize = dc.historySize := by
  induction bs generalizing dc with
  | nil => rfl
  | cons p bs ih =>
    exact (ih (update dc p.1 p.2).1).trans config_update.2.1

/-!
Claim theorems.
-/

/-- C1 counterexample: at capacity 2, with resident bins 10 (timestamp 10.5,
ingested first by source A) and 5 (timestamp 5.5, ingested second by source
B), admitting the new bin 20 evicts bin 10 from slot 0 even though bin 5
carries the smallest recorded timestamp (5.5 below 10.5) and remains
resident.  The claim that the evicted bin is the one with the smallest
recorded timestamp, and that this bin is the one absent afterwards, is
therefore false of the code. -/
theorem claim1_counterexample :
    (11/2 : ℚ) < 21/2 ∧
    (runBatches (mkDataContainer 1 2 1 ["p"])
      [("A", [(21/2, .ok [some 1])]), ("B", [(11/2, .ok [some 2])]),
       ("A", [(41/2, .ok [some 3])])]).mtimes = [(5, 11/2), (20, 41/2)] ∧
    10 ∉ (runBatches (mkDataContainer 1 2 1 ["p"])
      [("A", [(21/2, .ok [some 1])]), ("B", [(11/2, .ok [some 2])]),
       ("A", [(41/2, .ok [some 3])])]).mtimesSet ∧
    5 ∈ (runBatches (mkDataContainer 1 2 1 ["p"])
      [("A", [(21/2, .ok [some 1])]), ("B", [(11/2, .ok [some 2])]),
       ("A", [(41/2, .ok [some 3])])]).mtimesSet := by
  decide

/-- C1 (amended): at capacity, admitting an entry for a fresh bin removes
the bin held in slot 0 of the table (the earliest inserted); when slot 0
holds the smallest recorded raw timestamp, as under timestamp-ascending
ingestion, that smallest-timestamp bin is the one removed, its identifier
is absent from the resident set afterwards, and every other resident bin
identifier is retained. -/
theorem ingest_evicts_first_slot {dc : DataContainer} {source : String}
    {t : ℚ} {arr : Cell} {m0 : ℤ × ℚ} {rest : List (ℤ × ℚ)}
    (hwf : WF dc) (hs : source ∈ dc.sources) (hp : dc.paths ≠ [])
    (hmt : dc.mtimes = m0 :: rest)
    (hfull : dc.mtimes.length = dc.historySize)
    (hmin : ∀ p ∈ dc.mtimes, m0.2 ≤ p.2)
    (hnew : ⌊t / dc.binWidth⌋ ∉ dc.mtimesSet) :
    (update dc source [(t, .ok arr)]).2 = none ∧
    (update dc source [(t, .ok arr)]).1.mtimes =
      rest ++ [(⌊t / dc.binWidth⌋, t)] ∧
    m0.1 ∉ (update dc source [(t, .ok arr)]).1.mtimesSet ∧
    ∀ p ∈ dc.mtimes, p.1 ≠ m0.1 →
      p.1 ∈ (update dc source [(t, .ok arr)]).1.mtimesSet := by
  obtain ⟨h1, h2, h3, h4, h5⟩ := hwf
  have h0 : m0.1 ∈ dc.mtimesSet := by
    rw [h4, hmt]
    simp
  have hpe : processEntry dc (pixOf dc source) t (.ok arr) =
      .ok (evictInsert dc (pixOf dc source) m0 rest ⌊t / dc.binWidth⌋ t arr) :=
    processEntryB_evict hmt hnew hfull h0
  rw [update_singleton_of_mem hs hp, hpe]
  refine ⟨rfl, rfl, ?_, ?_⟩
  · show m0.1 ∉ insert ⌊t / dc.binWidth⌋ (dc.mtimesSet.erase m0.1)
    intro hc
    rcases Finset.mem_insert.mp hc with hc | hc
    · exact hnew (hc ▸ h0)
    · exact (Finset.not_mem_erase m0.1 dc.mtimesSet) hc
  · intro p hp' hne
    show p.1 ∈ insert ⌊t / dc.binWidth⌋ (dc.mtimesSet.erase m0.1)
    refine Finset.mem_insert_of_mem (Finset.mem_erase.mpr ⟨hne, ?_⟩)
    rw [h4]
    exact List.mem_toFinset.mpr (List.mem_map_of_mem Prod.fst hp')

/-- C1 witness: the amended eviction statement at the concrete full store
(bins 10 and 11 with ascending timestamps, so slot 0 is minimal). -/
theorem ingest_evicts_first_slot_witness :
    WF exampleFullStore ∧
    ((update exampleFullStore "A" [(61/2, .ok [some 9])]).2 = none ∧
     (update exampleFullStore "A" [(61/2, .ok [some 9])]).1.mtimes =
       [(11, 23/2)] ++
         [(⌊(61/2 : ℚ) / exampleFullStore.binWidth⌋, 61/2)] ∧
     (10, (21/2 : ℚ)).1 ∉
       (update exampleFullStore "A" [(61/2, .ok [some 9])]).1.mtimesSet ∧
     ∀ p ∈ exampleFullStore.mtimes, p.1 ≠ (10, (21/2 : ℚ)).1 →
       p.1 ∈ (update exampleFullStore "A"
         [(61/2, .ok [some 9])]).1.mtimesSet) :=
  ⟨by decide,
   ingest_evicts_first_slot (by decide) (by decide) (by decide) (by decide)
     (by decide) (by decide) (by decide)⟩

/-- C2 counterexample: a new bin 5 whose timestamp 5.5 is older than every
resident timestamp is ingested without any error: the call returns err none
and the bin is appended, so no MonotonicityViolation is surfaced. -/
theorem claim2_counterexample :
    (update exampleOneBinStore "A" [(11/2, .ok [some 2])]).2 = none ∧
    (update exampleOneBinStore "A" [(11/2, .ok [some 2])]).1.mtimes =
      [(10, 51/5), (5, 11/2)] ∧
    (∀ p ∈ exampleOneBinStore.mtimes, (11/2 : ℚ) < p.2) := by
  decide

/-- C2 (amended): ingest performs no monotonicity check; a successfully
loaded entry whose new bin is older than every resident bin is inserted
without any error (appended, or replacing the evicted slot at capacity),
and its bin becomes resident. -/
theorem ingest_no_monotonicity_check {dc : DataContainer} {source : String}
    {t : ℚ} {arr : Cell}
    (hwf : WF dc) (hs : source ∈ dc.sources) (hp : dc.paths ≠ [])
    (hcap : 0 < dc.historySize)
    (hnew : ⌊t / dc.binWidth⌋ ∉ dc.mtimesSet)
    (hold : ∀ p ∈ dc.mtimes, t < p.2) :
    (update dc source [(t, .ok arr)]).2 = none ∧
    ⌊t / dc.binWidth⌋ ∈ (update dc source [(t, .ok arr)]).1.mtimesSet := by
  obtain ⟨h1, h2, h3, h4, h5⟩ := hwf
  rw [update_singleton_of_mem hs hp]
  by_cases hlen : dc.mtimes.length = dc.historySize
  · cases hmt : dc.mtimes with
    | nil =>
      exfalso
      rw [hmt] at hlen
      simp at hlen
      omega
    | cons m0 rest =>
      have h0 : m0.1 ∈ dc.mtimesSet := by
        rw [h4, hmt]
        simp
      have hpe : processEntry dc (pixOf dc source) t (.ok arr) =
          .ok (evictInsert dc (pixOf dc source) m0 rest
            ⌊t / dc.binWidth⌋ t arr) :=
        processEntryB_evict hmt hnew hlen h0
      rw [hpe]
      exact ⟨rfl, Finset.mem_insert_self _ _⟩
  · have hpe : processEntry dc (pixOf dc source) t (.ok arr) =
        .ok (appendInsert dc (pixOf dc source) ⌊t / dc.binWidth⌋ t arr) :=
      processEntryB_append hnew hlen
    rw [hpe]
    exact ⟨rfl, Finset.mem_insert_self _ _⟩

/-- C2 witness: the out-of-order entry 5.5 against the store holding bin 10
at timestamp 10.2 is admitted without error. -/
theorem ingest_no_monotonicity_check_witness :
    WF exampleOneBinStore ∧
    (∀ p ∈ exampleOneBinStore.mtimes, (11/2 : ℚ) < p.2) ∧
    ((update exampleOneBinStore "A" [(11/2, .ok [some 2])]).2 = none ∧
     ⌊(11/2 : ℚ) / exampleOneBinStore.binWidth⌋ ∈
       (update exampleOneBinStore "A" [(11/2, .ok [some 2])]).1.mtimesSet) :=
  ⟨by decide, by decide,
   ingest_no_monotonicity_check (by decide) (by decide) (by decide)
     (by decide) (by decide) (by decide)⟩

/-- C3 counterexample: a batch whose first entry's load fails with a
non-EOF error aborts: the error is surfaced to the caller as loadError and
the remaining entry (bin 12) is never ingested, contradicting the claim
that any load failure only skips its own entry and is never surfaced. -/
theorem claim3_counterexample :
    update exampleOneBinStore "A"
        [(23/2, .loadFailure), (25/2, .ok [some 9])] =
      (exampleOneBinStore, some .loadError) ∧
    12 ∉ (update exampleOneBinStore "A"
        [(23/2, .loadFailure), (25/2, .ok [some 9])]).1.mtimesSet := by
  decide

/-- C3 (amended): only a truncated read (EOFError) is skipped with the
batch continuing and the state unchanged; any other load failure, whenever
the loader is actually invoked, propagates to the caller and stops the
batch with the remaining entries unprocessed. -/
theorem load_failure_policy (dc : DataContainer) (pix : ℕ) (t : ℚ)
    (es : List (ℚ × LoadResult)) :
    processEntry dc pix t .eofError = .ok dc ∧
    runEntries pix dc ((t, .eofError) :: es) = runEntries pix dc es ∧
    (¬ (⌊t / dc.binWidth⌋ ∈ dc.mtimesSet ∧
        anyWrittenAt dc pix ⌊t / dc.binWidth⌋ = true) →
      runEntries pix dc ((t, .loadFailure) :: es) =
        (dc, some .loadError)) := by
  refine ⟨processEntryB_eof dc pix t _, ?_, ?_⟩
  · exact runEntries_cons_ok (processEntryB_eof dc pix t _)
  · intro hc
    exact runEntries_cons_err (processEntryB_fail hc)

/-- C3 witness: at the one-bin store, an EOF entry is skipped with the
state unchanged, and a loadFailure entry for the fresh bin 11 propagates. -/
theorem load_failure_policy_witness :
    (¬ (⌊(23/2 : ℚ) / exampleOneBinStore.binWidth⌋ ∈
          exampleOneBinStore.mtimesSet ∧
        anyWrittenAt exampleOneBinStore 0
          ⌊(23/2 : ℚ) / exampleOneBinStore.binWidth⌋ = true)) ∧
    processEntry exampleOneBinStore 0 (23/2) .eofError =
      .ok exampleOneBinStore ∧
    runEntries 0 exampleOneBinStore [((23/2 : ℚ), .loadFailure)] =
      (exampleOneBinStore, some .loadError) :=
  ⟨by decide,
   (load_failure_policy exampleOneBinStore 0 (23/2) []).1,
   (load_failure_policy exampleOneBinStore 0 (23/2) []).2.2 (by decide)⟩

/-- C4 counterexample: a query with window 0 on a non-empty store is not
rejected: it returns the empty result instead of failing with an
InvalidArgument error (no such error exists in the code). -/
theorem claim4_counterexample :
    (latest exampleOneBinStore ["A"] "mean" 0).1 = .ok (.arr2 []) := by
  decide

/-- C4 witness: the no-rejection statement applied at window 0, mode mean,
on the concrete one-bin store. -/
theorem latest_no_mode_error_of_window_nonpos_witness :
    (0 : ℤ) ≤ 0 ∧
    (latest exampleOneBinStore ["A"] "mean" 0).1 ≠
      .error (.valueErrorUnexpectedMode "mean") :=
  ⟨le_refl 0,
   latest_no_mode_error_of_window_nonpos exampleOneBinStore ["A"] "mean" 0
     (le_refl 0) "mean"⟩

/-- C5 counterexample: on an empty store, a query with mode none and
window 2 returns the empty result instead of failing: the emptiness early
return precedes the aggregate-mode validation, refuting the claim for
every store state. -/
theorem claim5_counterexample :
    (latest (mkDataContainer 1 3 1 ["p"]) ["A"] "none" 2).1 =
      .ok (.arr2 []) := by
  decide

/-- C5 witness: the guard statement at the concrete one-bin store with
mode none and window 2, where all emptiness checks fail. -/
theorem latest_mode_guard_witness :
    (numel3 exampleOneBinStore.data ≠ 0 ∧
     numel3 (selectData exampleOneBinStore ["A"]) ≠ 0 ∧
     ¬ allNan3 (windowDataOf exampleOneBinStore ["A"] 2) = true) ∧
    (latest exampleOneBinStore ["A"] "none" 2).1 =
      .error (.valueErrorUnexpectedMode "none") :=
  ⟨⟨by decide, by decide, by decide⟩,
   latest_mode_guard exampleOneBinStore ["A"] "none" 2 (by decide)
     (by decide) (by decide) (Or.inr ⟨by decide, by decide⟩)⟩

/-- C6 witness: idempotent ingestion at the fresh store with entry
(10.5, value 1). -/
theorem update_idem_witness :
    WF (mkDataContainer 1 2 1 ["p"]) ∧
    update (mkDataContainer 1 2 1 ["p"]) "A"
        [((21/2 : ℚ), .ok [some 1]), (21/2, .ok [some 1])] =
      update (mkDataContainer 1 2 1 ["p"]) "A" [(21/2, .ok [some 1])] ∧
    update (update (mkDataContainer 1 2 1 ["p"]) "A"
        [((21/2 : ℚ), .ok [some 1])]).1 "A" [(21/2, .ok [some 1])] =
      update (mkDataContainer 1 2 1 ["p"]) "A" [(21/2, .ok [some 1])] :=
  ⟨by decide,
   (update_idem (mkDataContainer 1 2 1 ["p"]) "A" (21/2) [some 1]
     (by decide)).1,
   (update_idem (mkDataContainer 1 2 1 ["p"]) "A" (21/2) [some 1]
     (by decide)).2⟩

/-- C7: for every sequence of ingest calls from a well-formed store, the
configured capacity is unchanged and the number of resident bins (bin-table
length and the time-axis length of every cube row) never exceeds it; as
every prefix of a sequence is itself a sequence, the bound holds at every
point. -/
theorem capacity_invariant (dc0 : DataContainer)
    (bs : List (String × List (ℚ × LoadResult))) (hwf : WF dc0) :
    (runBatches dc0 bs).historySize = dc0.historySize ∧
    (runBatches dc0 bs).mtimes.length ≤ dc0.historySize ∧
    ∀ slab ∈ (runBatches dc0 bs).data,
      slab.length ≤ dc0.historySize := by
  have hw : WF (runBatches dc0 bs) := wf_runBatches hwf
  have hh := historySize_runBatches dc0 bs
  obtain ⟨-, hslab, -, -, hcap⟩ := hw
  refine ⟨hh, hh ▸ hcap, ?_⟩
  intro slab hs
  rw [hslab slab hs]
  exact hh ▸ hcap

/-- C7 witness: three ingest calls into a capacity-2 store stay within the
bound. -/
theorem capacity_invariant_witness :
    WF (mkDataContainer 1 2 1 ["p"]) ∧
    ((runBatches (mkDataContainer 1 2 1 ["p"])
        [("A", [(21/2, .ok [some 1])]), ("A", [(23/2, .ok [some 2])]),
         ("A", [(25/2, .ok [some 3])])]).historySize =
      (mkDataContainer 1 2 1 ["p"]).historySize ∧
     (runBatches (mkDataContainer 1 2 1 ["p"])
        [("A", [(21/2, .ok [some 1])]), ("A", [(23/2, .ok [some 2])]),
         ("A", [(25/2, .ok [some 3])])]).mtimes.length ≤
      (mkDataContainer 1 2 1 ["p"]).historySize ∧
     ∀ slab ∈ (runBatches (mkDataContainer 1 2 1 ["p"])
        [("A", [(21/2, .ok [some 1])]), ("A", [(23/2, .ok [some 2])]),
         ("A", [(25/2, .ok [some 3])])]).data,
       slab.length ≤ (mkDataContainer 1 2 1 ["p"]).historySize) :=
  ⟨by decide,
   capacity_invariant (mkDataContainer 1 2 1 ["p"])
     [("A", [(21/2, .ok [some 1])]), ("A", [(23/2, .ok [some 2])]),
      ("A", [(25/2, .ok [some 3])])] (by decide)⟩

/-- C8 counterexample: the store has bin 10 recorded at raw timestamp 10.2;
a later entry at timestamp 10.7 maps into the same bin and is observed, yet
the recorded timestamp stays 10.2, not the most recently observed 10.7. -/
theorem claim8_counterexample :
    ⌊(107/10 : ℚ) / (1 : ℚ)⌋ = 10 ∧
    update exampleOneBinStore "A" [(107/10, .ok [some 2])] =
      (exampleOneBinStore, none) ∧
    exampleOneBinStore.mtimes = [(10, 51/5)] ∧
    (51/5 : ℚ) ≠ 107/10 := by
  decide

/-- C8 (amended): the raw timestamp recorded for a resident bin is the one
of the entry that created the bin: a per-entry step whose bin is already
resident never changes the bin table, and a step that admits a fresh bin
records exactly that entry's timestamp in the new last slot. -/
theorem resident_bin_timestamp_frozen (dc : DataContainer) (pix : ℕ)
    (t : ℚ) (load : LoadResult) :
    (⌊t / dc.binWidth⌋ ∈ dc.mtimesSet → ∀ dc',
      processEntry dc pix t load = .ok dc' → dc'.mtimes = dc.mtimes) ∧
    (⌊t / dc.binWidth⌋ ∉ dc.mtimesSet → ∀ arr dc', load = .ok arr →
      processEntry dc pix t load = .ok dc' →
      dc'.mtimes.getLast? = some (⌊t / dc.binWidth⌋, t)) := by
  constructor
  · intro hb dc' h
    rcases processEntryB_ok_cases h with ⟨rfl, -⟩ | ⟨arr, -, -, rfl⟩ |
      ⟨arr, m0, rest, -, -, hmem, -, -, rfl⟩ | ⟨arr, -, hmem, -, rfl⟩
    · rfl
    · rfl
    · exact absurd hb hmem
    · exact absurd hb hmem
  · intro hb arr dc' harr h
    subst harr
    rcases processEntryB_ok_cases h with ⟨rfl, hsk | harr'⟩ |
      ⟨arr', -, hmem, rfl⟩ | ⟨arr', m0, rest, -, -, -, -, -, rfl⟩ |
      ⟨arr', -, -, -, rfl⟩
    · exact absurd hsk.1 hb
    · exact LoadResult.noConfusion harr'
    · exact absurd hmem hb
    · exact List.getLast?_concat _
    · exact List.getLast?_concat _

/-- C8 witness: a resident-bin entry (10.7 into bin 10) leaves the table
unchanged, and a fresh-bin entry (11.5 into bin 11) records its own
timestamp in the last slot. -/
theorem resident_bin_timestamp_frozen_witness :
    ⌊(107/10 : ℚ) / exampleOneBinStore.binWidth⌋ ∈
      exampleOneBinStore.mtimesSet ∧
    exampleOneBinStore.mtimes = exampleOneBinStore.mtimes ∧
    ⌊(23/2 : ℚ) / exampleOneBinStore.binWidth⌋ ∉
      exampleOneBinStore.mtimesSet ∧
    (appendInsert exampleOneBinStore 0
        ⌊(23/2 : ℚ) / exampleOneBinStore.binWidth⌋ (23/2)
        [some 2]).mtimes.getLast? =
      some (⌊(23/2 : ℚ) / exampleOneBinStore.binWidth⌋, 23/2) :=
  ⟨by decide,
   (resident_bin_timestamp_frozen exampleOneBinStore 0 (107/10)
     (.ok [some 2])).1 (by decide) exampleOneBinStore (by decide),
   by decide,
   (resident_bin_timestamp_frozen exampleOneBinStore 0 (23/2)
     (.ok [some 2])).2 (by decide) [some 2] _ rfl (by decide)⟩

/-- C9: removing a registered source leaves no resident bin that is all-NaN
across the remaining sources (every surviving time position has a non-NaN
witness in some remaining row), preserves well-formedness (so the cube rows
match the remaining registry and the resident set mirrors the table), and
drops every removed bin identifier from the resident set. -/
theorem remove_source_cleanup {dc : DataContainer} {source : String}
    (hwf : WF dc) (hs : source ∈ dc.sources) :
    (∀ tix, tix < (remove dc source).mtimes.length →
      ∃ pix, pix < (remove dc source).data.length ∧
        (((remove dc source).data.getD pix []).getD tix []).any
          Option.isSome = true) ∧
    WF (remove dc source) ∧
    (∀ i, i < (eraseSource dc source).mtimes.length →
      keepSample (eraseSource dc source) i = false →
      ((eraseSource dc source).mtimes.getD i (0, 0)).1 ∉
        (remove dc source).mtimesSet) := by
  have hrm : remove dc source = removeNanSamples (eraseSource dc source) := by
    unfold remove
    rw [if_pos hs]
  have hwfE := wf_eraseSource hwf hs
  obtain ⟨hA, hB, hC⟩ := removeNan_props hwfE
  rw [hrm]
  exact ⟨hA, hB, hC⟩

/-- C9 witness: removing source B from the two-source store drops bin 5
(whose only data came from B) and keeps bin 10 with the data of A. -/
theorem remove_source_cleanup_witness :
    WF exampleTwoSourceStore ∧ "B" ∈ exampleTwoSourceStore.sources ∧
    ((∀ tix, tix < (remove exampleTwoSourceStore "B").mtimes.length →
      ∃ pix, pix < (remove exampleTwoSourceStore "B").data.length ∧
        (((remove exampleTwoSourceStore "B").data.getD pix []).getD
          tix []).any Option.isSome = true) ∧
     WF (remove exampleTwoSourceStore "B") ∧
     (∀ i, i < (eraseSource exampleTwoSourceStore "B").mtimes.length →
      keepSample (eraseSource exampleTwoSourceStore "B") i = false →
      ((eraseSource exampleTwoSourceStore "B").mtimes.getD i (0, 0)).1 ∉
        (remove exampleTwoSourceStore "B").mtimesSet)) :=
  ⟨by decide, by decide,
   remove_source_cleanup (by decide) (by decide)⟩

end Pyrfeqt
